import Mathlib

/-!
Verification of the tree-structured barrier in src/fastlib/thor/rpc.cc and of
the index-mapping bookkeeping of tree::MakeKdTreeMidpoint in
src/fastlib/tree/kdtree.h, as a shallow embedding.

The barrier code is sequentialised: every externally observable effect of the
C++ code (Send of a zero-payload message, rpc::Register, rpc::Unregister,
Transaction::Done, DoneCondition signalling and waiting, rpc::WriteFlush) is
recorded as an Act in the order the code performs it, and the mutable
fields of BarrierTransaction together with the registry entry for its channel
form the state BTState.  A FATAL abort is modelled as the Option value none.
-/

/-- The spanning-tree topology visible to one process, i.e. the read-only
answers of rpc::is_root(), rpc::parent(), rpc::n_children() and rpc::child(i)
(the i-th entry of children). -/
structure Topology where
  is_root : Bool
  parent : Nat
  children : List Nat
  deriving DecidableEq, Repr

/-- rpc::n_children() is the number of children of this process. -/
def Topology.n_children (t : Topology) : Nat := t.children.length

/-- One externally observable effect of the barrier code, in program order:
send peer size is Send(CreateMessage(peer, size)); the rest are
rpc::Register, rpc::Unregister, Transaction::Done, cond_.Done(), cond_.Wait()
and rpc::WriteFlush. -/
inductive Act where
  | writeFlush : Act
  | register : Nat → Act
  | unregister : Nat → Act
  | send : Nat → Nat → Act
  | transactionDone : Act
  | condSignal : Act
  | condWait : Act
  deriving DecidableEq, Repr

/-- The mutable state of one BarrierTransaction together with the registry
entry for its channel: n_received is the field n_received_, registered says
whether the channel id currently maps to this BarrierChannel in the process
registry, condDone says whether cond_.Done() has been called. -/
structure BTState where
  n_received : Nat
  registered : Bool
  condDone : Bool
  deriving DecidableEq, Repr

namespace BarrierTransaction

/-- BarrierTransaction::DoMessage_(peer): CreateMessage(peer, 0) followed by
Send — exactly one zero-payload message to peer. -/
def DoMessage_ (peer : Nat) : Act := Act.send peer 0

/-- BarrierTransaction::CheckState_ (rpc.cc lines 36-53): if
n_received_ >= n_children, then either the completion branch
(is_root or n_received_ > n_children): Done(); Unregister(channel);
DoMessage_ to every child in order; cond_.Done() — or, otherwise, a single
DoMessage_ to the parent.  Below the child count, nothing happens. -/
def CheckState_ (t : Topology) (ch : Nat) (s : BTState) : BTState × List Act :=
  if t.n_children ≤ s.n_received then
    if t.is_root = true ∨ t.n_children < s.n_received then
      ({ s with registered := false, condDone := true },
        Act.transactionDone :: Act.unregister ch ::
          (t.children.map DoMessage_ ++ [Act.condSignal]))
    else
      (s, [DoMessage_ t.parent])
  else
    (s, [])

/-- BarrierTransaction::IsValidSender_ (rpc.cc lines 55-66): when
n_received_ == n_children only the parent is valid; otherwise the sender must
be one of the children (scanned by identity). -/
def IsValidSender_ (t : Topology) (s : BTState) (peer : Nat) : Bool :=
  if s.n_received = t.n_children then
    decide (peer = t.parent)
  else
    decide (peer ∈ t.children)

/-- BarrierTransaction::Init (rpc.cc lines 72-76): set n_received_ = 0 and run
the completion check.  The channel is not yet registered at this point
(BarrierChannel::Doit registers only after Init returns). -/
def Init (t : Topology) (ch : Nat) : BTState × List Act :=
  CheckState_ t ch { n_received := 0, registered := false, condDone := false }

/-- BarrierTransaction::HandleMessage (rpc.cc lines 82-91): an invalid sender
is FATAL (modelled as none); a valid message is consumed, n_received_ is
incremented and the completion check is re-run. -/
def HandleMessage (t : Topology) (ch : Nat) (s : BTState) (peer : Nat) :
    Option (BTState × List Act) :=
  if IsValidSender_ t s peer then
    some (CheckState_ t ch { s with n_received := s.n_received + 1 })
  else
    none

end BarrierTransaction

namespace BarrierChannel

/-- BarrierChannel::Doit (rpc.cc lines 101-106): transaction_.Init(channel_num)
runs first, then rpc::Register(channel_num, this) sets the registry entry,
then transaction_.Wait() blocks on the DoneCondition. -/
def Doit (t : Topology) (ch : Nat) : BTState × List Act :=
  ({ (BarrierTransaction.Init t ch).1 with registered := true },
    (BarrierTransaction.Init t ch).2 ++ [Act.register ch, Act.condWait])

end BarrierChannel

namespace rpc

/-- rpc::Barrier (rpc.cc lines 114-118): construct the transient
BarrierChannel, rpc::WriteFlush(), then BarrierChannel::Doit(channel_num). -/
def Barrier (t : Topology) (ch : Nat) : BTState × List Act :=
  ((BarrierChannel.Doit t ch).1, Act.writeFlush :: (BarrierChannel.Doit t ch).2)

end rpc

/-- Dispatch of one inbound message to this channel by the external dispatch
loop: traffic to an unregistered channel id is a fatal condition (none);
otherwise BarrierChannel::GetTransaction forwards the message to the single
transaction, i.e. to HandleMessage. -/
def Deliver (t : Topology) (ch : Nat) (s : BTState) (peer : Nat) :
    Option (BTState × List Act) :=
  if s.registered then
    BarrierTransaction.HandleMessage t ch s peer
  else
    none

/-- Deliver a sequence of inbound messages in order; none as soon as any
delivery hits the fatal path. -/
def DeliverAll (t : Topology) (ch : Nat) : BTState → List Nat → Option BTState
  | s, [] => some s
  | s, p :: ps =>
    match Deliver t ch s p with
    | some r => DeliverAll t ch r.1 ps
    | none => none

/-- The counting invariant of one barrier instance: the counter is at most one
beyond the child count, and while the channel stays registered it is at most
the child count. -/
def BarrierInv (t : Topology) (s : BTState) : Prop :=
  s.n_received ≤ t.n_children + 1 ∧
    (s.registered = true → s.n_received ≤ t.n_children)

/-- Once the condition has been signalled the channel is unregistered. -/
def CondClearInv (s : BTState) : Prop := s.condDone = true → s.registered = false


/-! Embedding of the index-map bookkeeping of tree::MakeKdTreeMidpoint
(src/fastlib/tree/kdtree.h, lines 46-81).  Only the two permutation arrays
matter for the claims; the matrix itself and the tree nodes are irrelevant to
them and are not modelled. -/

/-- The filling loop for new_from_old (kdtree.h lines 75-77): for i from the
current index upward, write i into position ofn[i] of the accumulator, where
ofn is the old_from_new array read through its pointer. -/
def newFromOldLoop (nfo : List Nat) (ofn : List Nat) (i : Nat) : List Nat :=
  match ofn with
  | [] => nfo
  | j :: rest => newFromOldLoop (nfo.set j i) rest (i + 1)

/-- Modelled from the spec: SplitKdTreeMidpoint is declared in kdtree_impl.h,
which is not part of this repository slice.  Per the surrounding code and the
header documentation (old_from_new "will map new indices to original"), it
re-orders the columns of the matrix and applies the identical re-ordering to
the old_from_new array, so its effect on old_from_new is a permutation of the
entries of the array it is handed. -/
def SplitPermutes (split : List Nat → List Nat) : Prop :=
  ∀ l, List.Perm (split l) l

/-- tree::MakeKdTreeMidpoint (kdtree.h lines 46-81), restricted to its
index-map bookkeeping.  wantOfn and wantNfo state whether the old_from_new
and new_from_old pointers are non-null.  When old_from_new is non-null it is
sized to n, filled with the identity, and re-ordered by SplitKdTreeMidpoint
(the split parameter).  When new_from_old is non-null, the filling loop reads
each entry through the old_from_new pointer: with a null old_from_new this is
an invalid dereference, modelled as none.  nfoInit stands for the unspecified
initial contents of the freshly sized new_from_old array. -/
def MakeKdTreeMidpoint (n : Nat) (split : List Nat → List Nat)
    (nfoInit : List Nat) (wantOfn wantNfo : Bool) :
    Option (Option (List Nat) × Option (List Nat)) :=
  let ofnOpt : Option (List Nat) :=
    if wantOfn then some (split (List.range n)) else none
  if wantNfo then
    match ofnOpt with
    | some ofn => some (some ofn, some (newFromOldLoop nfoInit ofn 0))
    | none => none
  else
    some (ofnOpt, none)

/-! Helper lemmas about the completion check. -/

/-- CheckState_ either leaves the state untouched (no completion) or fires the
completion branch, clearing the registration and signalling the condition. -/
lemma checkState_cases (t : Topology) (ch : Nat) (s : BTState) :
    (¬(t.n_children ≤ s.n_received ∧ (t.is_root = true ∨ t.n_children < s.n_received)) ∧
      (BarrierTransaction.CheckState_ t ch s).1 = s) ∨
    ((t.n_children ≤ s.n_received ∧ (t.is_root = true ∨ t.n_children < s.n_received)) ∧
      (BarrierTransaction.CheckState_ t ch s).1 =
        { s with registered := false, condDone := true }) := by
  unfold BarrierTransaction.CheckState_
  by_cases h1 : t.n_children ≤ s.n_received
  · by_cases h2 : t.is_root = true ∨ t.n_children < s.n_received
    · exact Or.inr ⟨⟨h1, h2⟩, by rw [if_pos h1, if_pos h2]⟩
    · exact Or.inl ⟨fun hc => h2 hc.2, by rw [if_pos h1, if_neg h2]⟩
  · exact Or.inl ⟨fun hc => h1 hc.1, by rw [if_neg h1]⟩

/-- The completion check never changes the receive counter. -/
lemma checkState_n_received (t : Topology) (ch : Nat) (s : BTState) :
    (BarrierTransaction.CheckState_ t ch s).1.n_received = s.n_received := by
  rcases checkState_cases t ch s with ⟨_, he⟩ | ⟨_, he⟩ <;> rw [he]

/-- Explicit form of the completion branch of CheckState_. -/
lemma checkState_fire (t : Topology) (ch : Nat) (s : BTState)
    (h1 : t.n_children ≤ s.n_received)
    (h2 : t.is_root = true ∨ t.n_children < s.n_received) :
    BarrierTransaction.CheckState_ t ch s =
      ({ s with registered := false, condDone := true },
        Act.transactionDone :: Act.unregister ch ::
          (t.children.map BarrierTransaction.DoMessage_ ++ [Act.condSignal])) := by
  unfold BarrierTransaction.CheckState_
  rw [if_pos h1, if_pos h2]

/-- Explicit form of the ready-to-parent branch of CheckState_. -/
lemma checkState_ready (t : Topology) (ch : Nat) (s : BTState)
    (hroot : t.is_root = false) (hcnt : s.n_received = t.n_children) :
    BarrierTransaction.CheckState_ t ch s = (s, [Act.send t.parent 0]) := by
  unfold BarrierTransaction.CheckState_ BarrierTransaction.DoMessage_
  rw [if_pos (le_of_eq hcnt.symm), if_neg ?hneg]
  case hneg =>
    rintro (h | h)
    · rw [hroot] at h; exact Bool.false_ne_true h
    · omega

/-- Explicit form of the waiting branch of CheckState_. -/
lemma checkState_wait (t : Topology) (ch : Nat) (s : BTState)
    (hlt : s.n_received < t.n_children) :
    BarrierTransaction.CheckState_ t ch s = (s, []) := by
  unfold BarrierTransaction.CheckState_
  rw [if_neg (by omega)]

/-- The trace emitted by one completion check is one of three shapes: nothing,
one ready message to the parent, or the full completion sequence. -/
lemma checkState_trace_cases (t : Topology) (ch : Nat) (s : BTState) :
    (BarrierTransaction.CheckState_ t ch s).2 = [] ∨
    (BarrierTransaction.CheckState_ t ch s).2 = [Act.send t.parent 0] ∨
    (BarrierTransaction.CheckState_ t ch s).2 =
      Act.transactionDone :: Act.unregister ch ::
        (t.children.map BarrierTransaction.DoMessage_ ++ [Act.condSignal]) := by
  unfold BarrierTransaction.CheckState_
  by_cases h1 : t.n_children ≤ s.n_received
  · by_cases h2 : t.is_root = true ∨ t.n_children < s.n_received
    · rw [if_pos h1, if_pos h2]; exact Or.inr (Or.inr rfl)
    · rw [if_pos h1, if_neg h2]; exact Or.inr (Or.inl rfl)
  · rw [if_neg h1]; exact Or.inl rfl

/-- A successful Deliver means the channel was registered, the sender was
valid, and the result is the completion check on the incremented state. -/
lemma deliver_eq {t : Topology} {ch : Nat} {s : BTState} {p : Nat}
    {r : BTState × List Act} (hd : Deliver t ch s p = some r) :
    s.registered = true ∧
      r = BarrierTransaction.CheckState_ t ch { s with n_received := s.n_received + 1 } := by
  unfold Deliver BarrierTransaction.HandleMessage at hd
  by_cases hreg : s.registered = true
  · rw [if_pos hreg] at hd
    by_cases hv : BarrierTransaction.IsValidSender_ t s p = true
    · rw [if_pos hv] at hd
      exact ⟨hreg, (Option.some.inj hd).symm⟩
    · rw [if_neg hv] at hd
      cases hd
  · rw [if_neg hreg] at hd
    cases hd

/-- C5: for a group of size one (the calling process is the root and has zero
children), Barrier(channel_id) returns immediately: the completion check run
from Init signals the DoneCondition, and the whole call emits no send action
at all — the process neither sends nor receives any message. -/
theorem barrier_singleton_group_immediate (pa ch : Nat) :
    (rpc.Barrier ⟨true, pa, []⟩ ch).1.condDone = true ∧
    (rpc.Barrier ⟨true, pa, []⟩ ch).2 =
      [Act.writeFlush, Act.transactionDone, Act.unregister ch,
        Act.condSignal, Act.register ch, Act.condWait] :=
  ⟨rfl, rfl⟩

/-- C6: on a non-root node whose receive counter equals its child count, the
completion check sends exactly one zero-payload ready message to the parent
and changes nothing else: the state (hence the registration and the
DoneCondition) is left untouched, so the node keeps waiting for the wake. -/
theorem barrier_nonroot_ready_message (t : Topology) (ch : Nat) (s : BTState)
    (hroot : t.is_root = false) (hcnt : s.n_received = t.n_children) :
    BarrierTransaction.CheckState_ t ch s = (s, [Act.send t.parent 0]) :=
  checkState_ready t ch s hroot hcnt

/-- Witness for C6 at a concrete non-root node with two children, both
counted: one ready message to parent 7, state unchanged. -/
theorem barrier_nonroot_ready_message_witness :
    BarrierTransaction.CheckState_ ⟨false, 7, [1, 2]⟩ 3 ⟨2, true, false⟩ =
      (⟨2, true, false⟩, [Act.send 7 0]) :=
  barrier_nonroot_ready_message ⟨false, 7, [1, 2]⟩ 3 ⟨2, true, false⟩ rfl rfl

/-- C7: when the completion branch fires (root with the counter at the child
count, or the counter beyond the child count after the wake of the parent),
the transaction performs, exactly once and in this order: Done, unregister of
its channel, one zero-payload wake message per child, and the DoneCondition
signal that releases the blocked Barrier call. -/
theorem barrier_completion_branch_actions (t : Topology) (ch : Nat) (s : BTState)
    (hfire : (t.is_root = true ∧ s.n_received = t.n_children) ∨
      t.n_children < s.n_received) :
    BarrierTransaction.CheckState_ t ch s =
      ({ s with registered := false, condDone := true },
        Act.transactionDone :: Act.unregister ch ::
          (t.children.map (fun c => Act.send c 0) ++ [Act.condSignal])) := by
  rcases hfire with ⟨hroot, hcnt⟩ | hgt
  · exact checkState_fire t ch s (le_of_eq hcnt.symm) (Or.inl hroot)
  · exact checkState_fire t ch s (Nat.le_of_lt hgt) (Or.inr hgt)

/-- Witness for C7 at a concrete root with children 3 and 4 and both child
messages counted. -/
theorem barrier_completion_branch_actions_witness :
    BarrierTransaction.CheckState_ ⟨true, 0, [3, 4]⟩ 2 ⟨2, true, false⟩ =
      (⟨2, false, true⟩,
        [Act.transactionDone, Act.unregister 2, Act.send 3 0, Act.send 4 0,
          Act.condSignal]) :=
  barrier_completion_branch_actions ⟨true, 0, [3, 4]⟩ 2 ⟨2, true, false⟩
    (Or.inl ⟨rfl, rfl⟩)

/-- C9: in the completion branch the DoneCondition signal is the last action:
the trace splits as a list that contains the unregister and every wake send,
followed by the single condSignal, and condSignal does not occur earlier — so
the application thread blocked in Wait cannot resume before the channel is
unregistered and all downward wake messages have been handed to Send. -/
theorem barrier_cond_signaled_last (t : Topology) (ch : Nat) (s : BTState)
    (hfire : (t.is_root = true ∧ s.n_received = t.n_children) ∨
      t.n_children < s.n_received) :
    (BarrierTransaction.CheckState_ t ch s).2 =
      (Act.transactionDone :: Act.unregister ch ::
        t.children.map (fun c => Act.send c 0)) ++ [Act.condSignal] ∧
    Act.condSignal ∉
      (Act.transactionDone :: Act.unregister ch ::
        t.children.map (fun c => Act.send c 0)) := by
  constructor
  · rcases hfire with ⟨hroot, hcnt⟩ | hgt
    · rw [checkState_fire t ch s (le_of_eq hcnt.symm) (Or.inl hroot)]
      rfl
    · rw [checkState_fire t ch s (Nat.le_of_lt hgt) (Or.inr hgt)]
      rfl
  · intro hmem
    simp only [List.mem_cons, List.mem_map] at hmem
    rcases hmem with h | h | ⟨c, _, h⟩ <;> cases h

/-- Witness for C9 at a concrete root with children 3 and 4. -/
theorem barrier_cond_signaled_last_witness :
    (BarrierTransaction.CheckState_ ⟨true, 0, [3, 4]⟩ 2 ⟨2, true, false⟩).2 =
      [Act.transactionDone, Act.unregister 2, Act.send 3 0, Act.send 4 0] ++
        [Act.condSignal] ∧
    Act.condSignal ∉
      [Act.transactionDone, Act.unregister 2, Act.send 3 0, Act.send 4 0] :=
  barrier_cond_signaled_last ⟨true, 0, [3, 4]⟩ 2 ⟨2, true, false⟩ (Or.inl ⟨rfl, rfl⟩)

/-- C3: HandleMessage hits the fatal path exactly when the sender is invalid
for the current phase: while the counter is below the child count only the
children are valid senders (checked by identity), at the child count only the
parent is, and a rank that is neither a child nor the parent is fatal at every
count.  A fatal delivery returns no successor state at all, so it never
increments the counter. -/
theorem barrier_sender_validation_fatal_iff_invalid
    (t : Topology) (ch : Nat) (s : BTState) (peer : Nat) :
    (s.n_received < t.n_children →
      (BarrierTransaction.HandleMessage t ch s peer = none ↔ peer ∉ t.children)) ∧
    (s.n_received = t.n_children →
      (BarrierTransaction.HandleMessage t ch s peer = none ↔ peer ≠ t.parent)) ∧
    (peer ∉ t.children → peer ≠ t.parent →
      BarrierTransaction.HandleMessage t ch s peer = none) := by
  unfold BarrierTransaction.HandleMessage BarrierTransaction.IsValidSender_
  refine ⟨fun hlt => ?_, fun heq => ?_, fun hc hp => ?_⟩
  · rw [if_neg (by omega : ¬s.n_received = t.n_children)]
    by_cases hm : peer ∈ t.children <;> simp [hm]
  · rw [if_pos heq]
    by_cases hp : peer = t.parent <;> simp [hp]
  · by_cases heq : s.n_received = t.n_children
    · rw [if_pos heq]
      simp [hp]
    · rw [if_neg heq]
      simp [hc]

/-- Witness for C3: a message from rank 3, which is neither a child nor the
parent of the node, is fatal. -/
theorem barrier_sender_validation_witness :
    BarrierTransaction.HandleMessage ⟨false, 2, [5, 7]⟩ 9 ⟨1, true, false⟩ 3 = none :=
  (barrier_sender_validation_fatal_iff_invalid ⟨false, 2, [5, 7]⟩ 9 ⟨1, true, false⟩ 3).2.2
    (by decide) (by decide)

/-! Run invariants over message deliveries. -/

/-- Any predicate preserved by one successful delivery is preserved by a whole
run of deliveries. -/
lemma deliverAll_preserves (t : Topology) (ch : Nat) (P : BTState → Prop)
    (hstep : ∀ s p r, P s → Deliver t ch s p = some r → P r.1) :
    ∀ (peers : List Nat) (s s' : BTState),
      P s → DeliverAll t ch s peers = some s' → P s' := by
  intro peers
  induction peers with
  | nil =>
    intro s s' h hr
    unfold DeliverAll at hr
    exact (Option.some.inj hr) ▸ h
  | cons p ps ih =>
    intro s s' h hr
    unfold DeliverAll at hr
    cases hd : Deliver t ch s p with
    | none => rw [hd] at hr; cases hr
    | some r =>
      rw [hd] at hr
      exact ih r.1 s' (hstep s p r h hd) hr

lemma inv_step (t : Topology) (ch : Nat) :
    ∀ s p r, BarrierInv t s → Deliver t ch s p = some r → BarrierInv t r.1 := by
  intro s p r h hd
  obtain ⟨hreg, hr⟩ := deliver_eq hd
  have hle : s.n_received ≤ t.n_children := h.2 hreg
  rw [hr]
  rcases checkState_cases t ch { s with n_received := s.n_received + 1 } with
    ⟨hc, he⟩ | ⟨_, he⟩
  · rw [he]
    constructor
    · simp only []
      omega
    · intro _
      simp only []
      by_contra hgt
      exact hc ⟨by simp only [] at hgt ⊢; omega, Or.inr (by simp only [] at hgt ⊢; omega)⟩
  · rw [he]
    constructor
    · simp only []
      omega
    · intro habs
      simp at habs

lemma init_n_received (t : Topology) (ch : Nat) :
    (BarrierTransaction.Init t ch).1.n_received = 0 :=
  checkState_n_received t ch { n_received := 0, registered := false, condDone := false }

lemma inv_doit (t : Topology) (ch : Nat) : BarrierInv t (BarrierChannel.Doit t ch).1 := by
  unfold BarrierChannel.Doit
  constructor
  · simp only [init_n_received]
    omega
  · intro _
    simp only [init_n_received]
    omega

/-- C4: within one barrier instance the receive counter never exceeds the
child count plus one, and once it is at the child count plus one (the single
extra message being the wake of the parent) the completion branch has already
unregistered the channel, so every further delivery on this channel is fatal
(none) and no further state-changing input is ever accepted. -/
theorem barrier_n_received_bounded (t : Topology) (ch : Nat) (peers : List Nat)
    (s' : BTState)
    (hrun : DeliverAll t ch (BarrierChannel.Doit t ch).1 peers = some s') :
    s'.n_received ≤ t.n_children + 1 ∧
    (s'.n_received = t.n_children + 1 → ∀ p, Deliver t ch s' p = none) := by
  have hinv : BarrierInv t s' :=
    deliverAll_preserves t ch (BarrierInv t) (inv_step t ch) peers
      (BarrierChannel.Doit t ch).1 s' (inv_doit t ch) hrun
  refine ⟨hinv.1, fun heq p => ?_⟩
  have hreg : s'.registered = false := by
    cases hr : s'.registered
    · rfl
    · have := hinv.2 hr
      omega
  unfold Deliver
  rw [if_neg (by rw [hreg]; exact Bool.false_ne_true)]

/-- Witness for C4: a leaf-parent pair where the node with one child receives
the child message and then the wake of the parent, reaching counter 2 with the
channel unregistered. -/
theorem barrier_n_received_bounded_witness :
    DeliverAll ⟨false, 0, [2]⟩ 5 (BarrierChannel.Doit ⟨false, 0, [2]⟩ 5).1 [2, 0] =
      some ⟨2, false, true⟩ ∧
    (⟨2, false, true⟩ : BTState).n_received ≤ Topology.n_children ⟨false, 0, [2]⟩ + 1 :=
  ⟨by decide,
    (barrier_n_received_bounded ⟨false, 0, [2]⟩ 5 [2, 0] ⟨2, false, true⟩ (by decide)).1⟩

/-! The registration-clearing invariant needed for C1. -/

/-- Outside the degenerate root-with-zero-children case, Init does not signal
the condition. -/
lemma init_condDone_false (t : Topology) (ch : Nat)
    (hne : ¬(t.is_root = true ∧ t.children = [])) :
    (BarrierTransaction.Init t ch).1.condDone = false := by
  unfold BarrierTransaction.Init
  rcases checkState_cases t ch { n_received := 0, registered := false, condDone := false } with
    ⟨_, he⟩ | ⟨⟨h1, h2⟩, he⟩
  · rw [he]
  · exfalso
    have h1' : t.children.length ≤ 0 := h1
    have hnil : t.children = [] := List.length_eq_zero.mp (Nat.le_zero.mp h1')
    rcases h2 with hroot | hlt
    · exact hne ⟨hroot, hnil⟩
    · have hlt' : t.n_children < 0 := hlt
      exact absurd hlt' (Nat.not_lt_zero _)

lemma condClear_step (t : Topology) (ch : Nat) :
    ∀ s p r, CondClearInv s → Deliver t ch s p = some r → CondClearInv r.1 := by
  intro s p r h hd
  obtain ⟨hreg, hr⟩ := deliver_eq hd
  have hcond : s.condDone = false := by
    cases hc : s.condDone
    · rfl
    · rw [h hc] at hreg
      cases hreg
  rw [hr]
  rcases checkState_cases t ch { s with n_received := s.n_received + 1 } with
    ⟨_, he⟩ | ⟨_, he⟩
  · rw [he]
    intro habs
    simp only [] at habs
    rw [hcond] at habs
    cases habs
  · rw [he]
    intro _
    rfl

lemma condClear_doit (t : Topology) (ch : Nat)
    (hne : ¬(t.is_root = true ∧ t.children = [])) :
    CondClearInv (BarrierChannel.Doit t ch).1 := by
  intro habs
  unfold BarrierChannel.Doit at habs
  simp only [] at habs
  rw [init_condDone_false t ch hne] at habs
  cases habs

/-- C1 amended: on every node except the root-with-zero-children one, protocol
completion (the DoneCondition being signalled) implies the registry entry for
the channel is clear, and it stays clear when Barrier returns, so the id can
be reused.  (On a root with zero children the claim fails: see the
counterexample theorem.) -/
theorem barrier_completion_by_message_clears_registration
    (t : Topology) (ch : Nat) (peers : List Nat) (s' : BTState)
    (hne : ¬(t.is_root = true ∧ t.children = []))
    (hrun : DeliverAll t ch (BarrierChannel.Doit t ch).1 peers = some s')
    (hdone : s'.condDone = true) :
    s'.registered = false :=
  deliverAll_preserves t ch CondClearInv (condClear_step t ch) peers
    (BarrierChannel.Doit t ch).1 s' (condClear_doit t ch hne) hrun hdone

/-- Witness for the amended C1: a childless non-root node completes on the
wake of its parent and ends with the channel unregistered. -/
theorem barrier_completion_clears_registration_witness :
    DeliverAll ⟨false, 0, []⟩ 4 (BarrierChannel.Doit ⟨false, 0, []⟩ 4).1 [0] =
      some ⟨1, false, true⟩ ∧
    (⟨1, false, true⟩ : BTState).registered = false :=
  ⟨by decide,
    barrier_completion_by_message_clears_registration ⟨false, 0, []⟩ 4 [0]
      ⟨1, false, true⟩ (by decide) (by decide) (by decide)⟩

/-- C1 counterexample: on a root with zero children (a group of size one) the
Barrier call completes — the DoneCondition has been signalled — yet the
registry entry for the channel id is still occupied when Barrier returns,
because BarrierChannel::Doit registers the channel after Init has already run
the completion branch and its Unregister.  The claim that the entry has been
cleared on completion is false there. -/
theorem barrier_root_leaf_leaves_channel_registered :
    (rpc.Barrier ⟨true, 0, []⟩ 17).1.condDone = true ∧
    (rpc.Barrier ⟨true, 0, []⟩ 17).1.registered = true := by
  decide

/-- No completion-check trace ever contains a Register action, so the whole
Init trace is free of registration. -/
lemma register_not_in_init_trace (t : Topology) (ch ch2 : Nat) :
    Act.register ch2 ∉ (BarrierTransaction.Init t ch).2 := by
  unfold BarrierTransaction.Init
  rcases checkState_trace_cases t ch
      { n_received := 0, registered := false, condDone := false } with he | he | he <;>
    rw [he] <;> intro hmem <;>
    simp [BarrierTransaction.DoMessage_] at hmem

/-- No completion-check trace ever contains a WriteFlush action. -/
lemma writeFlush_not_in_init_trace (t : Topology) (ch : Nat) :
    Act.writeFlush ∉ (BarrierTransaction.Init t ch).2 := by
  unfold BarrierTransaction.Init
  rcases checkState_trace_cases t ch
      { n_received := 0, registered := false, condDone := false } with he | he | he <;>
    rw [he] <;> intro hmem <;>
    simp [BarrierTransaction.DoMessage_] at hmem

/-- C2 counterexample: on a childless non-root node the ready message that
Init sends to the parent appears in the Barrier trace strictly before the
Register action — the registration does not happen before Init runs; the
code runs Init first (rpc.cc line 103) and registers afterwards (line 104). -/
theorem barrier_init_effect_precedes_registration :
    (rpc.Barrier ⟨false, 4, []⟩ 9).2.indexOf (Act.send 4 0) <
      (rpc.Barrier ⟨false, 4, []⟩ 9).2.indexOf (Act.register 9) := by
  decide

/-- C2 amended: Barrier flushes outbound traffic, then runs the transaction
Init (the initial completion check), then registers the transient channel at
the given id, then blocks on the DoneCondition — Init runs before the
registration, and no registration happens among the Init actions. -/
theorem barrier_trace_init_then_register_then_wait (t : Topology) (ch : Nat) :
    (rpc.Barrier t ch).2 =
      Act.writeFlush ::
        ((BarrierTransaction.Init t ch).2 ++ [Act.register ch, Act.condWait]) ∧
    Act.register ch ∉ (BarrierTransaction.Init t ch).2 :=
  ⟨rfl, register_not_in_init_trace t ch ch⟩

/-- C8: rpc::Barrier performs WriteFlush as its very first action and never
again, so the flush has returned before the channel registration and before
every barrier-protocol message this call sends. -/
theorem barrier_flush_first (t : Topology) (ch : Nat) :
    (rpc.Barrier t ch).2 = Act.writeFlush :: (BarrierChannel.Doit t ch).2 ∧
    Act.writeFlush ∉ (BarrierChannel.Doit t ch).2 := by
  refine ⟨rfl, ?_⟩
  unfold BarrierChannel.Doit
  intro hmem
  simp only [List.mem_append, List.mem_cons] at hmem
  rcases hmem with h | h | h | h
  · exact writeFlush_not_in_init_trace t ch h
  · cases h
  · cases h
  · cases h

/-- Witness for C8 at a concrete childless non-root node. -/
theorem barrier_flush_first_witness :
    (rpc.Barrier ⟨false, 4, []⟩ 2).2 =
      Act.writeFlush :: (BarrierChannel.Doit ⟨false, 4, []⟩ 2).2 ∧
    Act.writeFlush ∉ (BarrierChannel.Doit ⟨false, 4, []⟩ 2).2 :=
  barrier_flush_first ⟨false, 4, []⟩ 2

/-! Lemmas for the new_from_old filling loop and claim C10. -/

lemma newFromOldLoop_length (ofn : List Nat) :
    ∀ (nfo : List Nat) (i : Nat), (newFromOldLoop nfo ofn i).length = nfo.length := by
  induction ofn with
  | nil => intro nfo i; rfl
  | cons a rest ih =>
    intro nfo i
    unfold newFromOldLoop
    rw [ih (nfo.set a i) (i + 1), List.length_set]

/-- Positions outside the old_from_new entries are never written by the
filling loop. -/
lemma newFromOldLoop_not_mem (ofn : List Nat) :
    ∀ (nfo : List Nat) (i j : Nat), j ∉ ofn →
      (newFromOldLoop nfo ofn i)[j]? = nfo[j]? := by
  induction ofn with
  | nil => intro nfo i j _; rfl
  | cons a rest ih =>
    intro nfo i j hj
    have hja : j ≠ a := fun h => hj (h ▸ List.mem_cons_self a rest)
    have hjr : j ∉ rest := fun h => hj (List.mem_cons_of_mem a h)
    unfold newFromOldLoop
    rw [ih (nfo.set a i) (i + 1) j hjr, List.getElem?_set_ne hja.symm]

/-- The filling loop writes the running index at the position named by each
entry of old_from_new: if ofn has no duplicate and its entries are in range,
then after the loop the accumulator holds i + k at position ofn[k]. -/
lemma newFromOldLoop_hit (ofn : List Nat) :
    ∀ (nfo : List Nat) (i : Nat), ofn.Nodup → (∀ x ∈ ofn, x < nfo.length) →
      ∀ (k j : Nat), ofn[k]? = some j →
        (newFromOldLoop nfo ofn i)[j]? = some (i + k) := by
  induction ofn with
  | nil =>
    intro nfo i _ _ k j hk
    cases hk
  | cons a rest ih =>
    intro nfo i hnd hb k j hk
    obtain ⟨ha, hndr⟩ := List.nodup_cons.mp hnd
    cases k with
    | zero =>
      rw [List.getElem?_cons_zero] at hk
      cases hk
      unfold newFromOldLoop
      rw [newFromOldLoop_not_mem rest (nfo.set a i) (i + 1) a ha,
        List.getElem?_set_eq_of_lt i (hb a (List.mem_cons_self a rest)), Nat.add_zero]
    | succ k =>
      rw [List.getElem?_cons_succ] at hk
      unfold newFromOldLoop
      have hb2 : ∀ x ∈ rest, x < (nfo.set a i).length := by
        intro x hx
        rw [List.length_set]
        exact hb x (List.mem_cons_of_mem a hx)
      have := ih (nfo.set a i) (i + 1) hndr hb2 k j hk
      rw [this]
      congr 1
      omega

/-- C10: in the index-map bookkeeping of MakeKdTreeMidpoint, passing a
non-null new_from_old with a null old_from_new makes the filling loop read
through a null pointer (modelled as none) — a non-null old_from_new is a
precondition; and when both arrays are requested, both come back with length
n and new_from_old is the inverse of old_from_new: whenever old_from_new
holds j at position i, new_from_old holds i at position j, i.e.
new_from_old[old_from_new[i]] = i for every i below n. -/
theorem kdtree_new_from_old_inverse (n : Nat) (split : List Nat → List Nat)
    (nfoInit : List Nat) (hsplit : SplitPermutes split)
    (hinit : nfoInit.length = n) :
    MakeKdTreeMidpoint n split nfoInit false true = none ∧
    ∀ ofn nfo,
      MakeKdTreeMidpoint n split nfoInit true true = some (some ofn, some nfo) →
      ofn.length = n ∧ nfo.length = n ∧
        ∀ (i j : Nat), ofn[i]? = some j → nfo[j]? = some i := by
  constructor
  · rfl
  · intro ofn nfo heq
    have heq2 : (some (some (split (List.range n)),
        some (newFromOldLoop nfoInit (split (List.range n)) 0)) :
          Option (Option (List Nat) × Option (List Nat))) =
        some (some ofn, some nfo) := heq
    have hofn : split (List.range n) = ofn := by
      have := congrArg (fun o => o.bind (fun p => p.1)) heq2
      simpa using this
    have hnfo : newFromOldLoop nfoInit (split (List.range n)) 0 = nfo := by
      have := congrArg (fun o => o.bind (fun p => p.2)) heq2
      simpa using this
    subst hofn
    subst hnfo
    have hperm := hsplit (List.range n)
    have hlen : (split (List.range n)).length = n :=
      hperm.length_eq.trans (List.length_range n)
    have hnd : (split (List.range n)).Nodup :=
      hperm.nodup_iff.mpr (List.nodup_range n)
    have hb : ∀ x ∈ split (List.range n), x < nfoInit.length := by
      intro x hx
      rw [hinit]
      exact List.mem_range.mp (hperm.mem_iff.mp hx)
    refine ⟨hlen, (newFromOldLoop_length _ _ _).trans hinit, ?_⟩
    intro i j hij
    have := newFromOldLoop_hit (split (List.range n)) nfoInit 0 hnd hb i j hij
    rw [this, Nat.zero_add]

/-- Witness for C10: with three points and a split that reverses the order,
the null-old_from_new call is rejected. -/
theorem kdtree_new_from_old_inverse_witness :
    MakeKdTreeMidpoint 3 List.reverse [9, 9, 9] false true = none :=
  (kdtree_new_from_old_inverse 3 List.reverse [9, 9, 9]
    (fun l => List.reverse_perm l) (by decide)).1
